import Mathlib
/-!
Shallow embedding of src/Finale_Script.py, a one-shot pandas ETL pipeline
(load CSV, assess quality, detect functional-dependency inconsistencies,
derive KPIs, clean, impute, write outputs), together with proofs of the
testable properties stated in the design document.

Modelling conventions:
- A pandas DataFrame is a `DF`: a list of column names plus a list of rows,
  each row a list of cells aligned with the column list.
- A cell is `Cell.na` (NaN/NaT, the missing marker), a rational number
  (CSV numerics are modelled exactly as rationals), a string, or a datetime
  (arrival of `pd.to_datetime`).
- Float arithmetic on a numeric Series (where NaN and ±infinity can arise,
  as in the Profit/Sales division) is modelled by the type `PF` with explicit
  `nan`, `inf`, `ninf` and finite rational values, with IEEE-style special
  cases for division.
- Every pandas operation used by the script is given an executable Lean
  counterpart with the same observable behaviour: `dropna(subset)` is a
  filter, `groupby(col).filter(pred)` keeps rows of retained groups in
  original order, `drop_duplicates` / `duplicated` keep first occurrences
  and treat NaN cells as equal (as pandas does), `sort_values(by)` sorts
  ascending by the key column, `Series.median` skips NaN and averages the
  two middle values for even counts, `fillna` with a NaN fill value is a
  no-op.
- File I/O is modelled by an explicit output state (`RunOutputs`): the text
  log is the list of written lines (timestamp text is threaded as an opaque
  parameter), and each output file is `Option` (written or not written).
-/

/-- Cell of a DataFrame: missing marker (NaN/NaT), exact numeric value,
string, or datetime value produced by date parsing. -/
inductive Cell where
  | na : Cell
  | num : Rat → Cell
  | str : String → Cell
  | date : Int → Cell
deriving DecidableEq, Repr

/-- Model of a pandas DataFrame: named columns and rows of cells, row cells
aligned with the column-name list by position. -/
structure DF where
  cols : List String
  rows : List (List Cell)
deriving DecidableEq, Repr

namespace Cell

/-- Test for the missing marker, as pandas `isna`. -/
def isna : Cell → Bool
  | na => true
  | _ => false

end Cell

/-- Cell of a row at a column index (out-of-range reads the missing marker;
the pipeline only reads indices of existing columns). -/
def rowCell (r : List Cell) (i : Nat) : Cell :=
  r.getD i Cell.na

/-- Model of the pandas `dropna(subset=...)` row predicate: the row has no
missing value at any of the given column indices. -/
def cleanRow (idxs : List Nat) (r : List Cell) : Bool :=
  idxs.all fun i => !(rowCell r i).isna

/-- Model of `df.dropna(subset=cols)`: keep exactly the rows with no missing
value in the subset columns, in order. -/
def dropnaSubset (idxs : List Nat) (rows : List (List Cell)) : List (List Cell) :=
  rows.filter (cleanRow idxs)

/-- Model of pandas `Series.nunique`: number of distinct non-missing values. -/
def nunique (l : List Cell) : Nat :=
  ((l.filter fun c => !c.isna).dedup).length

/-- Row predicate for membership in the group of key value `k` under key
column index `ki`. -/
def sameKey (ki : Nat) (k : Cell) (r : List Cell) : Bool :=
  rowCell r ki == k

/-- Model of the group that `groupby` forms for key value `k`: all rows whose
key-column cell equals `k`, in order. -/
def groupOf (ki : Nat) (rows : List (List Cell)) (k : Cell) : List (List Cell) :=
  rows.filter (sameKey ki (k := k))

/-- Group predicate of the script (line 121): within the group of this row's
key, some dependent column has more than one distinct value
(`x[col2].nunique().gt(1).any()`). -/
def groupPred (ki : Nat) (deps : List Nat) (rows : List (List Cell)) (r : List Cell) : Bool :=
  deps.any fun j =>
    decide (1 < nunique ((groupOf ki rows (rowCell r ki)).map fun r2 => rowCell r2 j))

/-- Model of `df.groupby(col1).filter(pred)`: rows of retained groups, kept in
their original order. -/
def groupbyFilter (ki : Nat) (deps : List Nat) (rows : List (List Cell)) : List (List Cell) :=
  rows.filter (groupPred ki deps rows)

/-- Projection of a row onto a list of column indices, as `df[check_cols]`. -/
def projectCols (idxs : List Nat) (r : List Cell) : List Cell :=
  idxs.map (rowCell r)

/-- Helper for first-occurrence duplicate removal: drop every element equal to
one already seen. -/
def dedupFirstAux {α : Type} [DecidableEq α] (seen : List α) : List α → List α
  | [] => []
  | a :: l => if a ∈ seen then dedupFirstAux seen l else a :: dedupFirstAux (a :: seen) l

/-- Model of pandas `drop_duplicates()` with the default `keep=first`: keep
the first occurrence of each element, in order. -/
def dedupFirst {α : Type} [DecidableEq α] (l : List α) : List α :=
  dedupFirstAux [] l

/-- Total order used to model `sort_values` on the key cells: missing first,
then numbers by value, strings lexicographically, then datetimes; distinct
constructors ordered by rank. A sorted run of the script only ever compares
cells of one kind, so only the within-kind clauses are exercised. -/
def cellLe : Cell → Cell → Prop
  | Cell.na, _ => True
  | Cell.num _, Cell.na => False
  | Cell.num p, Cell.num q => p ≤ q
  | Cell.num _, _ => True
  | Cell.str _, Cell.na => False
  | Cell.str _, Cell.num _ => False
  | Cell.str s, Cell.str t => s ≤ t
  | Cell.str _, Cell.date _ => True
  | Cell.date n, Cell.date m => n ≤ m
  | Cell.date _, _ => False

instance cellLe.decidable : DecidableRel cellLe := by
  intro a b
  cases a <;> cases b <;> simp only [cellLe] <;> infer_instance

/-- Row comparison by the key cell, which sits at index 0 after projection
onto `check_cols = [col1] ++ col2`. -/
def rowKeyLe (r1 r2 : List Cell) : Prop :=
  cellLe (rowCell r1 0) (rowCell r2 0)

instance rowKeyLe.decidable : DecidableRel rowKeyLe := by
  intro a b
  unfold rowKeyLe
  infer_instance

/-- Shallow embedding of `detect_inconsistencies(df, col1, col2)`
(src/Finale_Script.py lines 108-122): copy the frame, drop rows with missing
key or dependent values, keep the groups in which some dependent column has
more than one distinct value, project onto the checked columns, drop
duplicate tuples and sort ascending by the key column. -/
def detect_inconsistencies (df : DF) (col1 : String) (col2 : List String) : DF :=
  let check_cols := col1 :: col2
  let ki := df.cols.indexOf col1
  let deps := col2.map df.cols.indexOf
  let df_temp := dropnaSubset (ki :: deps) df.rows
  let inconsistent := groupbyFilter ki deps df_temp
  let projected := inconsistent.map (projectCols (ki :: deps))
  ⟨check_cols, List.insertionSort rowKeyLe (dedupFirst projected)⟩

/-- Model of the call protocol of `detect_inconsistencies` as the caller sees
it: the function receives the caller's frame, works on `df.copy()` (line 113),
and every subsequent operation (`dropna`, `groupby(...).filter`, column
projection, `drop_duplicates`, `sort_values`) returns a fresh frame rather
than updating its argument, so the pair (caller's frame after the call,
returned result) is as below. -/
def copyDF (df : DF) : DF := df

/-- State-passing form of a call site of `detect_inconsistencies`: first
component is the caller's frame after the call, second is the returned
result computed from the copy. -/
def detectCall (df : DF) (col1 : String) (col2 : List String) : DF × DF :=
  let df_temp := copyDF df
  (df, detect_inconsistencies df_temp col1 col2)

instance rowKeyLe.total : IsTotal (List Cell) rowKeyLe :=
  ⟨fun r1 r2 => by
    have h : ∀ a b : Cell, cellLe a b ∨ cellLe b a := by
      intro a b
      cases a <;> cases b <;> simp [cellLe] <;> exact le_total ..
    exact h (rowCell r1 0) (rowCell r2 0)⟩

instance rowKeyLe.trans : IsTrans (List Cell) rowKeyLe :=
  ⟨fun r1 r2 r3 => by
    have h : ∀ a b c : Cell, cellLe a b → cellLe b c → cellLe a c := by
      intro a b c hab hbc
      cases a <;> cases b <;> cases c <;> simp_all [cellLe] <;> exact le_trans hab hbc
    exact h (rowCell r1 0) (rowCell r2 0) (rowCell r3 0)⟩

/-- Predicate (from the claim text): the row belongs to the original frame
and has no missing value in the key column or any dependent column. -/
def cleanSourceRow (rows : List (List Cell)) (ki : Nat) (deps : List Nat)
    (r : List Cell) : Prop :=
  r ∈ rows ∧ cleanRow (ki :: deps) r = true

/-- Predicate (from the claim text): among the clean rows, the key value `k`
appears with at least two distinct values in at least one dependent column. -/
def keyInconsistent (rows : List (List Cell)) (ki : Nat) (deps : List Nat)
    (k : Cell) : Prop :=
  ∃ j ∈ deps,
    ∃ r1, (cleanSourceRow rows ki deps r1 ∧ rowCell r1 ki = k) ∧
    ∃ r2, (cleanSourceRow rows ki deps r2 ∧ rowCell r2 ki = k) ∧
      rowCell r1 j ≠ rowCell r2 j

/-- Pandas float value as it appears in a numeric Series: NaN, plus or minus
infinity, or a finite value (modelled exactly as a rational). -/
inductive PF where
  | nan : PF
  | inf : PF
  | ninf : PF
  | fin : Rat → PF
deriving DecidableEq, Repr

namespace PF

/-- Test for a finite value (neither NaN nor an infinity). -/
def isFinite : PF → Bool
  | fin _ => true
  | _ => false

/-- IEEE-style division as numpy performs it elementwise on float Series:
NaN propagates, x/0 is plus or minus infinity for nonzero finite x, and 0/0
is NaN (invalid operation), not infinity. -/
def div : PF → PF → PF
  | nan, _ => nan
  | _, nan => nan
  | inf, inf => nan
  | inf, ninf => nan
  | ninf, inf => nan
  | ninf, ninf => nan
  | inf, fin s => if 0 ≤ s then inf else ninf
  | ninf, fin s => if 0 ≤ s then ninf else inf
  | fin _, inf => fin 0
  | fin _, ninf => fin 0
  | fin p, fin s =>
      if s = 0 then (if 0 < p then inf else if p < 0 then ninf else nan)
      else fin (p / s)

end PF

/-- Model of `.replace([np.inf, -np.inf], 0)` on one value. -/
def replaceInfWithZero : PF → PF
  | PF.inf => PF.fin 0
  | PF.ninf => PF.fin 0
  | x => x

/-- Shallow embedding of line 161 of src/Finale_Script.py:
`(df['Profit'] / df['Sales']).replace([np.inf, -np.inf], 0)`, the derived
Profit_Margin Series from aligned Profit and Sales Series. -/
def profitMarginSeries (profit sales : List PF) : List PF :=
  (List.zipWith PF.div profit sales).map replaceInfWithZero

/-- Model of pandas `Series.median` over a nonempty list of values: sort, take
the middle element for an odd count, the mean of the two middle elements for
an even count. -/
def medianVals (vals : List Rat) : Rat :=
  let s := List.insertionSort (fun a b : Rat => a ≤ b) vals
  if vals.length % 2 = 1 then s.getD (vals.length / 2) 0
  else (s.getD (vals.length / 2 - 1) 0 + s.getD (vals.length / 2) 0) / 2

/-- Model of `df[col].median()` on a numeric column with missing markers:
NaN values are skipped; the median of no values is NaN (`none`). -/
def seriesMedian (col : List (Option Rat)) : Option Rat :=
  let vals := col.filterMap id
  if vals.isEmpty then none else some (medianVals vals)

/-- Model of `Series.fillna(v)`: each missing cell becomes `v`; filling with
NaN (`none`, as happens when the median itself is NaN) leaves the column
unchanged. -/
def fillnaCol (v : Option Rat) (col : List (Option Rat)) : List (Option Rat) :=
  match v with
  | none => col
  | some q => col.map fun c => some (c.getD q)

/-- Shallow embedding of the imputation step for one numeric column
(src/Finale_Script.py lines 189-193): if the column has any missing value,
fill the missing cells with the column median computed over its current
non-missing values. -/
def imputeColumn (col : List (Option Rat)) : List (Option Rat) :=
  if col.any (fun c => c.isNone) then fillnaCol (seriesMedian col) col else col

/-- Shallow embedding of the duplicate-removal pass
(src/Finale_Script.py lines 177-179): the cleaned rows are
`df.drop_duplicates()` (drop every row identical to an earlier one) and the
logged removed-row count is `initial_count - len(df)`. -/
def dropDuplicatesPass (rows : List (List Cell)) : List (List Cell) × Nat :=
  let deduped := dedupFirst rows
  (deduped, rows.length - deduped.length)

/-- Helper for the model of `df.duplicated()`: one Boolean per row, true when
the row equals some element of `seen` or an earlier row of the list. -/
def duplicatedFlagsAux {α : Type} [DecidableEq α] (seen : List α) : List α → List Bool
  | [] => []
  | a :: l => decide (a ∈ seen) :: duplicatedFlagsAux (a :: seen) l

/-- Shallow embedding of `df.duplicated().sum()` (src/Finale_Script.py line
140): the number of rows marked as exact duplicates of an earlier row. -/
def countFullDuplicates (rows : List (List Cell)) : Nat :=
  (duplicatedFlagsAux [] rows).count true

/-- Characters removed from the ends of a name by Python str.strip (space and
the standard ASCII whitespace controls). -/
def isPyWhitespace (c : Char) : Bool :=
  c = ' ' || c = '\t' || c = '\n' || c = '\r' || c = '\x0B' || c = '\x0C'

/-- Model of `.str.strip()` on the characters of one name: remove leading and
trailing whitespace. -/
def stripChars (l : List Char) : List Char :=
  (l.dropWhile isPyWhitespace).rdropWhile isPyWhitespace

/-- Model of `.str.replace(' ', '_')` per character (the pattern is the
single space character, so the replacement is characterwise). -/
def replaceSpaceChar (c : Char) : Char :=
  if c = ' ' then '_' else c

/-- Uppercase basic latin letters paired with their lowercase forms. -/
def asciiLowerPairs : List (Char × Char) :=
  [('A', 'a'), ('B', 'b'), ('C', 'c'), ('D', 'd'), ('E', 'e'), ('F', 'f'), ('G', 'g'),
   ('H', 'h'), ('I', 'i'), ('J', 'j'), ('K', 'k'), ('L', 'l'), ('M', 'm'), ('N', 'n'),
   ('O', 'o'), ('P', 'p'), ('Q', 'q'), ('R', 'r'), ('S', 's'), ('T', 't'), ('U', 'u'),
   ('V', 'v'), ('W', 'w'), ('X', 'x'), ('Y', 'y'), ('Z', 'z')]

/-- Model of `.str.lower()` per character, on basic latin letters (the same
restriction as Lean's own character lowercasing; the column names this
pipeline sees are ASCII). -/
def lowerChar (c : Char) : Char :=
  ((asciiLowerPairs.find? fun p => p.1 == c).map Prod.snd).getD c

/-- Shallow embedding of the column-name normalization of line 173 of
src/Finale_Script.py, `df.columns.str.strip().str.replace(' ', '_').str.lower()`,
applied to the characters of one column name. -/
def charNormalize (l : List Char) : List Char :=
  ((stripChars l).map replaceSpaceChar).map lowerChar

/-- The normalization on one column name as a string. -/
def normalizeName (s : String) : String :=
  String.mk (charNormalize s.data)

/-- The column-rename pass: the normalization applied to every column name
uniformly. -/
def normalizeColumns (cols : List String) : List String :=
  cols.map normalizeName

/-- Configured date-valued columns (src/Finale_Script.py line 33). -/
def DATE_COLS : List String := ["Order Date", "Ship Date"]

/-- Normalization the date loop itself applies to each configured name
(line 182): `c.lower().replace(' ', '_')` (lowercase first, then replace
spaces; on these names the result agrees with the column normalization). -/
def loopDateName (s : String) : String :=
  String.mk ((s.data.map lowerChar).map replaceSpaceChar)

/-- Model of `pd.to_datetime(value, errors='coerce')` for one cell, over an
abstract parser: a parseable value becomes a datetime value and an
unparseable one becomes the missing marker NaT, with no exception. -/
def coerceDate (parse : Cell → Option Int) (c : Cell) : Cell :=
  match parse c with
  | some t => Cell.date t
  | none => Cell.na

/-- Update one column of a row table by position. -/
def mapColumn (j : Nat) (f : Cell → Cell) (rows : List (List Cell)) : List (List Cell) :=
  rows.map fun r => r.set j (f (rowCell r j))

/-- One iteration of the date loop (lines 183-185): if the normalized name is
a column of the frame, coerce that column; otherwise leave the frame as is. -/
def applyDateCol (parse : Cell → Option Int) (acc : DF) (col : String) : DF :=
  if col ∈ acc.cols then
    ⟨acc.cols, mapColumn (acc.cols.indexOf col) (coerceDate parse) acc.rows⟩
  else acc

/-- Shallow embedding of the date-parsing pass (lines 182-185). -/
def datePass (parse : Cell → Option Int) (df : DF) : DF :=
  (DATE_COLS.map loopDateName).foldl (applyDateCol parse) df

/-- Configured input path (src/Finale_Script.py line 26). -/
def RAW_DATA_PATH : String := "GBP_DataSource_Pr.csv"

/-- Configured cleaned-output path (line 27). -/
def CLEAN_DATA_PATH : String := "GBP_DataSource_clean.csv"

/-- State of the AnalysisLogger: the lines written so far to the text log and
the paragraphs of the in-memory Word document. Timestamps produced by
datetime.now are threaded as the opaque `now` parameter; the rendered table
bodies in the document are abstracted to a placeholder paragraph, since no
observable behaviour of the run depends on their text. -/
structure LoggerState where
  txt : List String
  doc : List String
deriving Repr

/-- Model of the AnalysisLogger constructor (lines 40-49): start the document
with its title and the text log with a generation header and a rule line. -/
def loggerInit (now : String) : LoggerState :=
  { txt := ["DATA ANALYSIS LOG | Generated: " ++ now, String.mk (List.replicate 80 (Char.ofNat 61))],
    doc := ["Technical Data Analysis Report"] }

/-- Model of log_section (lines 51-57); the heading level only affects
document styling. -/
def logSection (title : String) (_level : Nat) (st : LoggerState) : LoggerState :=
  { txt := st.txt ++ ["SECTION: " ++ title, String.mk (List.replicate 40 (Char.ofNat 45))],
    doc := st.doc ++ [title] }

/-- Model of log_message (lines 59-64): a timestamped line in the text log
and a paragraph in the document. -/
def logMessage (now : String) (message : String) (st : LoggerState) : LoggerState :=
  { txt := st.txt ++ [now ++ " | " ++ message],
    doc := st.doc ++ [message] }

/-- Model of log_table (lines 66-100): the optional title goes through
log_message; an empty frame records a no-issues paragraph, a nonempty one a
rendered table (abstracted). -/
def logTable (now : String) (title : Option String) (tableEmpty : Bool)
    (st : LoggerState) : LoggerState :=
  let st1 := match title with
    | some t => logMessage now t st
    | none => st
  if tableEmpty then { st1 with doc := st1.doc ++ ["No issues/data found for this metric."] }
  else { st1 with doc := st1.doc ++ ["[rendered table]"] }

/-- Per-column missing-value counts (line 137), one entry per column. -/
def missingCounts (df : DF) : List (String × Nat) :=
  (List.range df.cols.length).map fun j =>
    (df.cols.getD j "", (df.rows.map fun r => rowCell r j).countP fun c => c.isna)

namespace Cell

/-- Test for a numeric (float) cell. -/
def isNum : Cell → Bool
  | num _ => true
  | _ => false

/-- Numeric value of a cell, if any (NaN reads as `none`). -/
def asNum : Cell → Option Rat
  | num q => some q
  | _ => none

/-- Conversion used to model a numeric Series as cells. -/
def toPF : Cell → PF
  | num q => PF.fin q
  | _ => PF.nan

/-- Python str rendering of a cell, used by the Product_Full_Name
concatenation (the exact float rendering is abstracted; nothing in the run
observes it). -/
def pyStr : Cell → String
  | na => "nan"
  | num q => toString q
  | str s => s
  | date t => toString t

end Cell

/-- Numeric Series value back to a cell: finite values are numbers, NaN and
the infinities are the missing marker. -/
def pfToCell : PF → Cell
  | PF.fin q => Cell.num q
  | _ => Cell.na

/-- Optional rational back to a cell. -/
def optCell : Option Rat → Cell
  | some q => Cell.num q
  | none => Cell.na

/-- Append a derived column on the right, one value per row, as the column
assignments of lines 161 and 166 do. -/
def addColumn (df : DF) (name : String) (vals : List Cell) : DF :=
  ⟨df.cols ++ [name], (df.rows.zip vals).map fun rv => rv.1 ++ [rv.2]⟩

/-- The Profit_Margin values of line 161 computed over the frame. -/
def profitMarginColumn (df : DF) : List Cell :=
  (profitMarginSeries
      (df.rows.map fun r => (rowCell r (df.cols.indexOf "Profit")).toPF)
      (df.rows.map fun r => (rowCell r (df.cols.indexOf "Sales")).toPF)).map pfToCell

/-- The Product_Full_Name values of line 166. -/
def productFullNameColumn (df : DF) : List Cell :=
  df.rows.map fun r =>
    Cell.str ((rowCell r (df.cols.indexOf "Product ID")).pyStr ++ " | " ++
      (rowCell r (df.cols.indexOf "Product Name")).pyStr)

/-- Write a column of per-row values into the row table by position. -/
def setColumn (j : Nat) (vals : List Cell) (rows : List (List Cell)) : List (List Cell) :=
  (rows.zip vals).map fun rv => rv.1.set j rv.2

/-- Text of a median for the imputation log line. -/
def medianText : Option Rat → String
  | none => "nan"
  | some q => toString q

/-- The date-conversion loop of lines 182-185, threading the logger. -/
def dateStage (now : String) (parse : Cell → Option Int) (st : LoggerState) (df : DF) :
    LoggerState × DF :=
  (DATE_COLS.map loopDateName).foldl
    (fun acc col =>
      if col ∈ acc.2.cols then
        (logMessage now ("Converted " ++ col ++ " to datetime.") acc.1,
         applyDateCol parse acc.2 col)
      else acc)
    (st, df)

/-- One column of the imputation loop of lines 188-193: numeric columns with
any missing value are filled with their median and the imputation is
logged. -/
def imputeStep (now : String) (acc : LoggerState × DF) (j : Nat) : LoggerState × DF :=
  let colCells := acc.2.rows.map fun r => rowCell r j
  if colCells.all fun c => c.isna || c.isNum then
    if colCells.any fun c => c.isna then
      let asOpts := colCells.map Cell.asNum
      (logMessage now ("Imputed missing values in " ++ acc.2.cols.getD j "" ++
          " with median: " ++ medianText (seriesMedian asOpts)) acc.1,
       ⟨acc.2.cols, setColumn j ((imputeColumn asOpts).map optCell) acc.2.rows⟩)
    else acc
  else acc

/-- The imputation loop over the columns in frame order. -/
def imputeStage (now : String) (st : LoggerState) (df : DF) : LoggerState × DF :=
  (List.range df.cols.length).foldl (imputeStep now) (st, df)

/-- Observable outputs of one run: the text-log lines, the cleaned CSV
(`none` when the file is never written), the saved report document (`none`
when never saved), and the report document as it stands in memory when the
run ends. -/
structure RunOutputs where
  textLog : List String
  cleanOut : Option DF
  reportSaved : Option (List String)
  reportInMemory : List String

/-- Shallow embedding of run_pipeline (src/Finale_Script.py lines 124-202).
The input file is `none` when no file exists at the configured path, in
which case the run logs a critical message and returns before writing any
output (lines 128-130); otherwise the whole pipeline runs and both output
files are written. -/
def run_pipeline (now : String) (input : Option DF) (parse : Cell → Option Int) : RunOutputs :=
  let st0 := loggerInit now
  match input with
  | none =>
    let st1 := logMessage now ("CRITICAL: " ++ RAW_DATA_PATH ++ " not found.") st0
    { textLog := st1.txt, cleanOut := none, reportSaved := none, reportInMemory := st1.doc }
  | some df0 =>
    let st1 := logSection "1. Data Quality Assessment" 1 st0
    let st2 := logMessage now ("Initial Shape: " ++ toString df0.rows.length ++ " rows, " ++
      toString df0.cols.length ++ " columns.") st1
    let missing := (missingCounts df0).filter fun p => 0 < p.2
    let st3 := logTable now (some "Missing Values Summary") missing.isEmpty st2
    let st4 := logMessage now ("Fully Duplicated Rows: " ++
      toString (countFullDuplicates df0.rows)) st3
    let st5 := logSection "2. Logical Inconsistency Check" 2 st4
    let st6 := if "Postal Code" ∈ df0.cols ∧ "City" ∈ df0.cols then
        logTable now (some "Inconsistent Mapping: One Postal Code to Many Cities")
          (detect_inconsistencies df0 "Postal Code" ["City"]).rows.isEmpty st5
      else st5
    let st7 := if "Product ID" ∈ df0.cols ∧ "Product Name" ∈ df0.cols then
        logTable now (some "Inconsistent Mapping: One Product ID to Many Names")
          (detect_inconsistencies df0 "Product ID" ["Product Name"]).rows.isEmpty st6
      else st6
    let st8 := logSection "3. Calculations & KPI Enrichment" 1 st7
    let df1 := if "Profit" ∈ df0.cols ∧ "Sales" ∈ df0.cols then
        addColumn df0 "Profit_Margin" (profitMarginColumn df0)
      else df0
    let st9 := if "Profit" ∈ df0.cols ∧ "Sales" ∈ df0.cols then
        logMessage now "Added KPI: Profit_Margin (Profit / Sales)" st8
      else st8
    let df2 := if "Product ID" ∈ df1.cols ∧ "Product Name" ∈ df1.cols then
        addColumn df1 "Product_Full_Name" (productFullNameColumn df1)
      else df1
    let st10 := if "Product ID" ∈ df1.cols ∧ "Product Name" ∈ df1.cols then
        logMessage now "Added Attribute: Product_Full_Name" st9
      else st9
    let st11 := logSection "4. Data Cleaning & Transformation Log" 1 st10
    let df3 : DF := ⟨normalizeColumns df2.cols, df2.rows⟩
    let st12 := logMessage now "Standardized column names to lowercase snake_case." st11
    let df4 : DF := ⟨df3.cols, dedupFirst df3.rows⟩
    let st13 := logMessage now ("Dropped " ++ toString (df3.rows.length - df4.rows.length) ++
      " duplicate rows.") st12
    let sd := dateStage now parse st13 df4
    let si := imputeStage now sd.1 sd.2
    let st14 := logSection "5. Final Dataset Summary" 1 si.1
    let st15 := logMessage now ("Final Row Count: " ++ toString si.2.rows.length) st14
    let st16 := logMessage now ("Cleaned dataset exported to: " ++ CLEAN_DATA_PATH) st15
    { textLog := st16.txt, cleanOut := some si.2, reportSaved := some st16.doc,
      reportInMemory := st16.doc }

example :
    (detect_inconsistencies
      ⟨["key", "city"],
       [[Cell.num 10001, Cell.str "Los Angeles"],
        [Cell.num 10001, Cell.str "San Francisco"]]⟩
      "key" ["city"]).rows =
      [[Cell.num 10001, Cell.str "Los Angeles"],
       [Cell.num 10001, Cell.str "San Francisco"]] := by
  decide

theorem mem_dedupFirstAux {α : Type} [DecidableEq α] (seen : List α) (l : List α) (x : α) :
    x ∈ dedupFirstAux seen l ↔ x ∈ l ∧ x ∉ seen := by
  induction l generalizing seen with
  | nil => simp [dedupFirstAux]
  | cons a l ih =>
    by_cases ha : a ∈ seen
    · simp only [dedupFirstAux, if_pos ha, ih, List.mem_cons]
      constructor
      · rintro ⟨hx, hns⟩; exact ⟨Or.inr hx, hns⟩
      · rintro ⟨hx | hx, hns⟩
        · exact absurd (hx ▸ ha) hns
        · exact ⟨hx, hns⟩
    · simp only [dedupFirstAux, if_neg ha, List.mem_cons, ih]
      constructor
      · rintro (rfl | ⟨hx, hns⟩)
        · exact ⟨Or.inl rfl, ha⟩
        · exact ⟨Or.inr hx, fun hs => hns (Or.inr hs)⟩
      · rintro ⟨rfl | hx, hns⟩
        · exact Or.inl rfl
        · by_cases hxa : x = a
          · exact Or.inl hxa
          · exact Or.inr ⟨hx, by simp [List.mem_cons, hxa, hns]⟩

theorem nodup_dedupFirstAux {α : Type} [DecidableEq α] (seen : List α) (l : List α) :
    (dedupFirstAux seen l).Nodup := by
  induction l generalizing seen with
  | nil => simp [dedupFirstAux]
  | cons a l ih =>
    by_cases ha : a ∈ seen
    · simpa [dedupFirstAux, if_pos ha] using ih seen
    · simp only [dedupFirstAux, if_neg ha]
      refine List.Nodup.cons (fun hmem => ?_) (ih (a :: seen))
      exact ((mem_dedupFirstAux _ _ _).1 hmem).2 (List.mem_cons_self a seen)

theorem mem_dedupFirst {α : Type} [DecidableEq α] (l : List α) (x : α) :
    x ∈ dedupFirst l ↔ x ∈ l := by
  simp [dedupFirst, mem_dedupFirstAux]

theorem nodup_dedupFirst {α : Type} [DecidableEq α] (l : List α) :
    (dedupFirst l).Nodup :=
  nodup_dedupFirstAux [] l

theorem mem_dropnaSubset {idxs : List Nat} {rows : List (List Cell)} {r : List Cell} :
    r ∈ dropnaSubset idxs rows ↔ r ∈ rows ∧ cleanRow idxs r = true := by
  simp [dropnaSubset, List.mem_filter]

theorem mem_groupOf {ki : Nat} {rows : List (List Cell)} {k : Cell} {r : List Cell} :
    r ∈ groupOf ki rows k ↔ r ∈ rows ∧ rowCell r ki = k := by
  simp [groupOf, List.mem_filter, sameKey]

theorem cleanRow_isna {idxs : List Nat} {r : List Cell} (h : cleanRow idxs r = true)
    {i : Nat} (hi : i ∈ idxs) : (rowCell r i).isna = false := by
  have := (List.all_eq_true.1 h) i hi
  simpa using this

theorem one_lt_dedupLength_iff {α : Type} [DecidableEq α] (l : List α) :
    1 < l.dedup.length ↔ ∃ a ∈ l, ∃ b ∈ l, a ≠ b := by
  constructor
  · intro h
    rcases hd : l.dedup with _ | ⟨a, t1⟩
    · rw [hd] at h; simp at h
    rcases ht : t1 with _ | ⟨b, t⟩
    · rw [hd, ht] at h; simp at h
    have hnd := l.nodup_dedup
    rw [hd, ht] at hnd
    have hab : a ≠ b := by
      intro hab
      exact (List.nodup_cons.1 hnd).1 (hab ▸ List.mem_cons_self b t)
    have ha : a ∈ l := (List.mem_dedup).1 (by rw [hd, ht]; exact List.mem_cons_self a _)
    have hb : b ∈ l := (List.mem_dedup).1
      (by rw [hd, ht]; exact List.mem_cons_of_mem a (List.mem_cons_self b t))
    exact ⟨a, ha, b, hb, hab⟩
  · rintro ⟨a, ha, b, hb, hab⟩
    by_contra hle
    push_neg at hle
    interval_cases h : l.dedup.length
    · exact absurd (List.length_eq_zero.1 h ▸ (List.mem_dedup.2 ha)) (List.not_mem_nil a)
    · obtain ⟨c, hc⟩ := List.length_eq_one.1 h
      have ha2 := hc ▸ List.mem_dedup.2 ha
      have hb2 := hc ▸ List.mem_dedup.2 hb
      simp only [List.mem_singleton] at ha2 hb2
      exact hab (ha2.trans hb2.symm)

theorem one_lt_nunique_iff {l : List Cell} (h : ∀ c ∈ l, c.isna = false) :
    1 < nunique l ↔ ∃ a ∈ l, ∃ b ∈ l, a ≠ b := by
  have hfilter : l.filter (fun c => !c.isna) = l :=
    List.filter_eq_self.2 (by intro c hc; simp [h c hc])
  rw [nunique, hfilter, one_lt_dedupLength_iff]

theorem groupPred_iff {ki : Nat} {deps : List Nat} {rows : List (List Cell)} {r : List Cell} :
    groupPred ki deps rows r = true ↔
      ∃ j ∈ deps,
        1 < nunique ((groupOf ki rows (rowCell r ki)).map fun r2 => rowCell r2 j) := by
  simp [groupPred, List.any_eq_true]

theorem nunique_group_dropna_iff {rows : List (List Cell)} {ki j : Nat} {deps : List Nat}
    (hj : j ∈ deps) (k : Cell) :
    1 < nunique ((groupOf ki (dropnaSubset (ki :: deps) rows) k).map fun r2 => rowCell r2 j) ↔
      ∃ r1, (cleanSourceRow rows ki deps r1 ∧ rowCell r1 ki = k) ∧
      ∃ r2, (cleanSourceRow rows ki deps r2 ∧ rowCell r2 ki = k) ∧
        rowCell r1 j ≠ rowCell r2 j := by
  rw [one_lt_nunique_iff]
  · simp only [List.mem_map, mem_groupOf, mem_dropnaSubset, cleanSourceRow]
    constructor
    · rintro ⟨a, ⟨r1, ⟨⟨h1, hc1⟩, hk1⟩, rfl⟩, b, ⟨r2, ⟨⟨h2, hc2⟩, hk2⟩, rfl⟩, hne⟩
      exact ⟨r1, ⟨⟨h1, hc1⟩, hk1⟩, r2, ⟨⟨h2, hc2⟩, hk2⟩, hne⟩
    · rintro ⟨r1, ⟨⟨h1, hc1⟩, hk1⟩, r2, ⟨⟨h2, hc2⟩, hk2⟩, hne⟩
      exact ⟨rowCell r1 j, ⟨r1, ⟨⟨h1, hc1⟩, hk1⟩, rfl⟩,
        rowCell r2 j, ⟨r2, ⟨⟨h2, hc2⟩, hk2⟩, rfl⟩, hne⟩
  · intro c hc
    obtain ⟨r2, hr2, rfl⟩ := List.mem_map.1 hc
    have hkept := (mem_groupOf.1 hr2).1
    have hclean := (mem_dropnaSubset.1 hkept).2
    exact cleanRow_isna hclean (List.mem_cons_of_mem ki hj)

theorem groupPred_dropna_iff {rows : List (List Cell)} {ki : Nat} {deps : List Nat}
    {r : List Cell} :
    groupPred ki deps (dropnaSubset (ki :: deps) rows) r = true ↔
      keyInconsistent rows ki deps (rowCell r ki) := by
  rw [groupPred_iff, keyInconsistent]
  constructor
  · rintro ⟨j, hj, h⟩
    exact ⟨j, hj, (nunique_group_dropna_iff hj _).1 h⟩
  · rintro ⟨j, hj, h⟩
    exact ⟨j, hj, (nunique_group_dropna_iff hj _).2 h⟩

theorem mem_detect_rows (df : DF) (col1 : String) (col2 : List String) (t : List Cell) :
    t ∈ (detect_inconsistencies df col1 col2).rows ↔
      ∃ r, cleanSourceRow df.rows (df.cols.indexOf col1) (col2.map df.cols.indexOf) r ∧
        keyInconsistent df.rows (df.cols.indexOf col1) (col2.map df.cols.indexOf)
          (rowCell r (df.cols.indexOf col1)) ∧
        t = projectCols (df.cols.indexOf col1 :: col2.map df.cols.indexOf) r := by
  simp only [detect_inconsistencies, List.mem_insertionSort, mem_dedupFirst, List.mem_map,
    groupbyFilter, List.mem_filter, mem_dropnaSubset]
  constructor
  · rintro ⟨r, ⟨⟨hmem, hclean⟩, hpred⟩, rfl⟩
    exact ⟨r, ⟨hmem, hclean⟩, groupPred_dropna_iff.1 hpred, rfl⟩
  · rintro ⟨r, ⟨hmem, hclean⟩, hinc, rfl⟩
    exact ⟨r, ⟨⟨hmem, hclean⟩, groupPred_dropna_iff.2 hinc⟩, rfl⟩

theorem detect_rows_nodup (df : DF) (col1 : String) (col2 : List String) :
    (detect_inconsistencies df col1 col2).rows.Nodup := by
  simp only [detect_inconsistencies]
  exact (List.perm_insertionSort rowKeyLe _).nodup_iff.2 (nodup_dedupFirst _)

theorem detect_rows_sorted (df : DF) (col1 : String) (col2 : List String) :
    (detect_inconsistencies df col1 col2).rows.Sorted rowKeyLe := by
  simp only [detect_inconsistencies]
  exact List.sorted_insertionSort rowKeyLe _

/-- C1: for every table, key column and list of dependent columns,
`detect_inconsistencies` returns exactly the distinct (key, dependent...)
tuples drawn from rows with no missing value in the key or any dependent
column whose key value appears with at least two distinct values in at least
one dependent column among those rows; the result has no duplicate tuples
and its rows are sorted ascending by the key (which is component 0 of each
projected tuple). -/
theorem detect_inconsistencies_spec (df : DF) (col1 : String) (col2 : List String) :
    (∀ t : List Cell,
        t ∈ (detect_inconsistencies df col1 col2).rows ↔
          ∃ r, cleanSourceRow df.rows (df.cols.indexOf col1) (col2.map df.cols.indexOf) r ∧
            keyInconsistent df.rows (df.cols.indexOf col1) (col2.map df.cols.indexOf)
              (rowCell r (df.cols.indexOf col1)) ∧
            t = projectCols (df.cols.indexOf col1 :: col2.map df.cols.indexOf) r)
    ∧ (detect_inconsistencies df col1 col2).rows.Nodup
    ∧ (detect_inconsistencies df col1 col2).rows.Sorted rowKeyLe :=
  ⟨mem_detect_rows df col1 col2, detect_rows_nodup df col1 col2, detect_rows_sorted df col1 col2⟩

/-- C7: if, after excluding rows with a missing key or dependent value, every
key value maps to exactly one dependent tuple, then `detect_inconsistencies`
returns an empty table (a normal value, not an error: the function is total
and simply returns a frame with no rows). -/
theorem detect_inconsistencies_empty (df : DF) (col1 : String) (col2 : List String)
    (h : ∀ r1 ∈ df.rows, ∀ r2 ∈ df.rows,
        cleanRow (df.cols.indexOf col1 :: col2.map df.cols.indexOf) r1 = true →
        cleanRow (df.cols.indexOf col1 :: col2.map df.cols.indexOf) r2 = true →
        rowCell r1 (df.cols.indexOf col1) = rowCell r2 (df.cols.indexOf col1) →
        projectCols (col2.map df.cols.indexOf) r1 = projectCols (col2.map df.cols.indexOf) r2) :
    (detect_inconsistencies df col1 col2).rows = [] := by
  rw [List.eq_nil_iff_forall_not_mem]
  intro t ht
  obtain ⟨r, hr, hinc, -⟩ := (mem_detect_rows df col1 col2 t).1 ht
  obtain ⟨j, hj, r1, ⟨⟨hm1, hc1⟩, hk1⟩, r2, ⟨⟨hm2, hc2⟩, hk2⟩, hne⟩ := hinc
  have heq := h r1 hm1 r2 hm2 hc1 hc2 (hk1.trans hk2.symm)
  have := (List.map_eq_map_iff.1 heq) j hj
  exact hne this

/-- Witness for C7 at a concrete table in which each key determines its
dependent tuple. -/
theorem detect_inconsistencies_empty_witness :
    (∀ r1 ∈ (DF.mk ["k", "v"]
        [[Cell.num 1, Cell.str "a"], [Cell.num 1, Cell.str "a"], [Cell.num 2, Cell.str "b"]]).rows,
      ∀ r2 ∈ (DF.mk ["k", "v"]
        [[Cell.num 1, Cell.str "a"], [Cell.num 1, Cell.str "a"], [Cell.num 2, Cell.str "b"]]).rows,
        cleanRow [0, 1] r1 = true → cleanRow [0, 1] r2 = true →
        rowCell r1 0 = rowCell r2 0 → projectCols [1] r1 = projectCols [1] r2)
    ∧ (detect_inconsistencies
        (DF.mk ["k", "v"]
          [[Cell.num 1, Cell.str "a"], [Cell.num 1, Cell.str "a"], [Cell.num 2, Cell.str "b"]])
        "k" ["v"]).rows = [] :=
  ⟨by decide,
   detect_inconsistencies_empty
     (DF.mk ["k", "v"]
       [[Cell.num 1, Cell.str "a"], [Cell.num 1, Cell.str "a"], [Cell.num 2, Cell.str "b"]])
     "k" ["v"] (by decide)⟩

example : profitMarginSeries [PF.fin 25] [PF.fin 100] = [PF.fin (1 / 4)] := by
  norm_num [profitMarginSeries, PF.div, replaceInfWithZero]

example : profitMarginSeries [PF.fin 5] [PF.fin 0] = [PF.fin 0] := by
  norm_num [profitMarginSeries, PF.div, replaceInfWithZero]

/-- C2 counterexample: in the row with profit 0 and sales 0 the derived
profit_margin value is NaN (0/0 is NaN, which `.replace([inf, -inf], 0)` does
not touch), so it is neither 0 nor finite, contrary to the claim. -/
theorem profitMargin_zero_zero_is_nan :
    profitMarginSeries [PF.fin 0] [PF.fin 0] = [PF.nan] ∧
    PF.nan ≠ PF.fin 0 ∧ PF.isFinite PF.nan = false :=
  ⟨rfl, by decide, rfl⟩

/-- C2 (amended): for every aligned pair of finite profit and sales values,
the derived profit_margin value equals profit / sales when sales is nonzero;
for sales = 0 it is 0 when profit is nonzero (the infinity is replaced by 0)
and NaN when profit is also 0; in particular it is finite in every case
except profit = 0 and sales = 0. -/
theorem profitMargin_spec (profit sales : List PF) (i : Nat) (p s : Rat)
    (hp : profit[i]? = some (PF.fin p)) (hs : sales[i]? = some (PF.fin s)) :
    (profitMarginSeries profit sales)[i]? =
      some (if s = 0 then (if p = 0 then PF.nan else PF.fin 0) else PF.fin (p / s)) ∧
    (¬(p = 0 ∧ s = 0) →
      ∃ q : Rat, (profitMarginSeries profit sales)[i]? = some (PF.fin q)) := by
  have hdiv : (profitMarginSeries profit sales)[i]? =
      some (replaceInfWithZero (PF.div (PF.fin p) (PF.fin s))) := by
    simp [profitMarginSeries, List.getElem?_map, List.getElem?_zipWith, hp, hs]
  constructor
  · rw [hdiv]
    by_cases hs0 : s = 0
    · by_cases hp0 : p = 0
      · simp [PF.div, replaceInfWithZero, hs0, hp0]
      · rcases lt_or_gt_of_ne hp0 with hneg | hpos
        · simp [PF.div, replaceInfWithZero, hs0, hp0, not_lt_of_gt hneg, hneg]
        · simp [PF.div, replaceInfWithZero, hs0, hp0, hpos]
    · simp [PF.div, replaceInfWithZero, hs0]
  · intro hne
    rw [hdiv]
    by_cases hs0 : s = 0
    · have hp0 : p ≠ 0 := fun hp0 => hne ⟨hp0, hs0⟩
      rcases lt_or_gt_of_ne hp0 with hneg | hpos
      · exact ⟨0, by simp [PF.div, replaceInfWithZero, hs0, not_lt_of_gt hneg, hneg]⟩
      · exact ⟨0, by simp [PF.div, replaceInfWithZero, hs0, hpos]⟩
    · exact ⟨p / s, by simp [PF.div, replaceInfWithZero, hs0]⟩

/-- Witness for C2 (amended) at the two scenario rows of the design document:
profit 25 with sales 100 gives 1/4, and profit 5 with sales 0 gives 0. -/
theorem profitMargin_spec_witness :
    ([PF.fin 25, PF.fin 5] : List PF)[0]? = some (PF.fin 25) ∧
    ([PF.fin 100, PF.fin 0] : List PF)[0]? = some (PF.fin 100) ∧
    ([PF.fin 25, PF.fin 5] : List PF)[1]? = some (PF.fin 5) ∧
    ([PF.fin 100, PF.fin 0] : List PF)[1]? = some (PF.fin 0) ∧
    (profitMarginSeries [PF.fin 25, PF.fin 5] [PF.fin 100, PF.fin 0])[0]? =
      some (PF.fin (1 / 4)) ∧
    (profitMarginSeries [PF.fin 25, PF.fin 5] [PF.fin 100, PF.fin 0])[1]? =
      some (PF.fin 0) := by
  refine ⟨rfl, rfl, rfl, rfl, ?_, ?_⟩
  · have h := (profitMargin_spec [PF.fin 25, PF.fin 5] [PF.fin 100, PF.fin 0]
      0 25 100 rfl rfl).1
    rw [h]
    norm_num
  · have h := (profitMargin_spec [PF.fin 25, PF.fin 5] [PF.fin 100, PF.fin 0]
      1 5 0 rfl rfl).1
    rw [h]
    norm_num

example : imputeColumn [some 1, some 3, none, some 7] = [some 1, some 3, some 3, some 7] := by
  decide

/-- C3 counterexample: a numeric column whose values are all missing still
contains missing values after the imputation pass, because its median is NaN
and `fillna(NaN)` fills nothing. -/
theorem imputeColumn_all_missing_counterexample :
    imputeColumn [none] = [none] ∧
    ((imputeColumn [none]).any fun c => c.isNone) = true :=
  ⟨rfl, rfl⟩

/-- C3 (amended): for every numeric column that contains a missing value and
at least one non-missing value, after the imputation pass the column contains
no missing values, each cell that was missing equals the median of the
column's non-missing values immediately before imputation, and each
non-missing cell is unchanged. -/
theorem imputeColumn_spec (col : List (Option Rat))
    (hmiss : (col.any fun c => c.isNone) = true)
    (hsome : (col.any fun c => c.isSome) = true) :
    (∀ c ∈ imputeColumn col, c.isSome = true) ∧
    (∀ i : Nat, col[i]? = some none →
      (imputeColumn col)[i]? = some (some (medianVals (col.filterMap id)))) ∧
    (∀ i : Nat, ∀ q : Rat, col[i]? = some (some q) →
      (imputeColumn col)[i]? = some (some q)) := by
  have hvals : (col.filterMap id).isEmpty = false := by
    obtain ⟨c, hc, hcs⟩ := List.any_eq_true.1 hsome
    obtain ⟨q, rfl⟩ := Option.isSome_iff_exists.1 hcs
    have hq : q ∈ col.filterMap id := List.mem_filterMap.2 ⟨some q, hc, rfl⟩
    rcases hemp : col.filterMap (fun a => id a) with _ | _
    · rw [hemp] at hq; simp at hq
    · simp
  have himp : imputeColumn col = col.map fun c => some (c.getD (medianVals (col.filterMap id))) := by
    rw [imputeColumn, if_pos hmiss, seriesMedian]
    simp only [hvals, Bool.false_eq_true, if_false, fillnaCol]
  refine ⟨?_, ?_, ?_⟩
  · intro c hc
    rw [himp] at hc
    obtain ⟨c0, -, rfl⟩ := List.mem_map.1 hc
    rfl
  · intro i hi
    rw [himp, List.getElem?_map, hi]
    rfl
  · intro i q hi
    rw [himp, List.getElem?_map, hi]
    rfl

/-- Witness for C3 (amended) at the scenario column of the design document:
the column 1, 3, missing, 7 becomes 1, 3, 3, 7 with imputed value 3, the
median of 1, 3, 7. -/
theorem imputeColumn_spec_witness :
    (([some 1, some 3, none, some 7] : List (Option Rat)).any fun c => c.isNone) = true ∧
    (([some 1, some 3, none, some 7] : List (Option Rat)).any fun c => c.isSome) = true ∧
    (imputeColumn [some 1, some 3, none, some 7])[2]? = some (some 3) ∧
    medianVals (([some 1, some 3, none, some 7] : List (Option Rat)).filterMap id) = 3 := by
  have hmed : medianVals (([some 1, some 3, none, some 7] :
      List (Option Rat)).filterMap id) = 3 := by decide
  refine ⟨rfl, rfl, ?_, hmed⟩
  have h := (imputeColumn_spec [some 1, some 3, none, some 7] rfl rfl).2.1 2 rfl
  rw [h, hmed]

/-- C5: after the exact-duplicate-removal pass no two rows of the resulting
table are fully identical, and the logged removed-row count equals the row
count before deduplication minus the row count after. -/
theorem dropDuplicatesPass_spec (rows : List (List Cell)) :
    (dropDuplicatesPass rows).1.Nodup ∧
    (dropDuplicatesPass rows).2 = rows.length - (dropDuplicatesPass rows).1.length :=
  ⟨nodup_dedupFirst rows, rfl⟩

theorem count_true_duplicatedFlagsAux {α : Type} [DecidableEq α]
    (seen : List α) (l : List α) (d : α) :
    (duplicatedFlagsAux seen l).count true =
      (List.range l.length).countP fun i => decide (l.getD i d ∈ seen ++ l.take i) := by
  induction l generalizing seen with
  | nil => simp [duplicatedFlagsAux]
  | cons a l ih =>
    have hleft : (duplicatedFlagsAux seen (a :: l)).count true =
        (duplicatedFlagsAux (a :: seen) l).count true + (if a ∈ seen then 1 else 0) := by
      rw [duplicatedFlagsAux, List.count_cons]
      by_cases ha : a ∈ seen <;> simp [ha]
    have htail : (List.range l.length).countP
          ((fun i => decide ((a :: l).getD i d ∈ seen ++ (a :: l).take i)) ∘ Nat.succ) =
        (List.range l.length).countP
          fun i => decide (l.getD i d ∈ (a :: seen) ++ l.take i) := by
      refine List.countP_congr fun i _ => ?_
      simp only [Function.comp_apply, decide_eq_true_eq]
      rw [List.getD_cons_succ, List.take_succ_cons]
      simp only [List.mem_append, List.mem_cons]
      tauto
    have hhead : (if (fun i => decide ((a :: l).getD i d ∈ seen ++ (a :: l).take i)) 0 = true
          then 1 else 0) = (if a ∈ seen then 1 else 0) := by
      by_cases ha : a ∈ seen <;> simp [ha]
    rw [List.length_cons, List.range_succ_eq_map, List.countP_cons, List.countP_map,
      htail, hhead, hleft, ih (a :: seen)]

theorem dedupFirstAux_congr {α : Type} [DecidableEq α] {seen1 seen2 : List α}
    (h : ∀ x, x ∈ seen1 ↔ x ∈ seen2) (l : List α) :
    dedupFirstAux seen1 l = dedupFirstAux seen2 l := by
  induction l generalizing seen1 seen2 with
  | nil => rfl
  | cons a l ih =>
    by_cases ha : a ∈ seen1
    · rw [dedupFirstAux, if_pos ha, dedupFirstAux, if_pos ((h a).1 ha), ih h]
    · rw [dedupFirstAux, if_neg ha, dedupFirstAux, if_neg (fun h2 => ha ((h a).2 h2))]
      have h2 : ∀ x, x ∈ a :: seen1 ↔ x ∈ a :: seen2 := by
        intro x
        simp only [List.mem_cons]
        exact or_congr Iff.rfl (h x)
      rw [ih h2]

/-- Helper relating first-occurrence deduplication with the duplicate flags:
the rows not flagged are exactly the rows kept by `drop_duplicates`. -/
theorem count_false_duplicatedFlagsAux {α : Type} [DecidableEq α]
    (seen : List α) (l : List α) :
    (duplicatedFlagsAux seen l).count false = (dedupFirstAux seen l).length := by
  induction l generalizing seen with
  | nil => simp [duplicatedFlagsAux, dedupFirstAux]
  | cons a l ih =>
    by_cases ha : a ∈ seen
    · have hcongr : dedupFirstAux (a :: seen) l = dedupFirstAux seen l :=
        dedupFirstAux_congr
          (fun x => by simp only [List.mem_cons]; exact ⟨fun h => h.elim (fun hx => hx ▸ ha) id,
            Or.inr⟩) l
      simp [duplicatedFlagsAux, dedupFirstAux, ha, List.count_cons, ih, hcongr]
    · simp [duplicatedFlagsAux, dedupFirstAux, ha, List.count_cons, ih]

/-- C8: the full-row duplicate count of the quality assessment equals the
number of row positions whose row also occurs at an earlier position (the
second and later occurrences of each repeated row; a row occurring k times
contributes k - 1, so the count also equals the number of rows minus the
number of distinct rows). -/
theorem countFullDuplicates_spec (rows : List (List Cell)) :
    countFullDuplicates rows =
      ((List.range rows.length).countP fun i => decide (rows.getD i [] ∈ rows.take i)) ∧
    countFullDuplicates rows = rows.length - (dedupFirst rows).length := by
  constructor
  · rw [countFullDuplicates, count_true_duplicatedFlagsAux [] rows []]
    refine List.countP_congr fun i _ => ?_
    simp
  · have htotal : (duplicatedFlagsAux ([] : List (List Cell)) rows).count true +
        (duplicatedFlagsAux ([] : List (List Cell)) rows).count false =
        (duplicatedFlagsAux ([] : List (List Cell)) rows).length := by
      have := List.count_true_add_count_false (duplicatedFlagsAux ([] : List (List Cell)) rows)
      omega
    have hlen : (duplicatedFlagsAux ([] : List (List Cell)) rows).length = rows.length := by
      clear htotal
      induction rows with
      | nil => rfl
      | cons a l ih =>
        simp [duplicatedFlagsAux]
        have : ∀ (seen : List (List Cell)),
            (duplicatedFlagsAux seen l).length = l.length := by
          clear ih
          induction l with
          | nil => intro seen; rfl
          | cons b m ihm =>
            intro seen
            simp [duplicatedFlagsAux, ihm]
        exact this _
    have hfalse := count_false_duplicatedFlagsAux ([] : List (List Cell)) rows
    rw [countFullDuplicates, dedupFirst] at *
    omega

example : normalizeColumns ["  Order Date ", "Sales"] = ["order_date", "sales"] := by
  decide

theorem lowerChar_eq_self {c : Char} (h : c ∉ asciiLowerPairs.map Prod.fst) :
    lowerChar c = c := by
  have hnone : asciiLowerPairs.find? (fun p => p.1 == c) = none := by
    rw [List.find?_eq_none]
    intro p hp hbeq
    exact h (List.mem_map.2 ⟨p, hp, beq_iff_eq.1 hbeq⟩)
  rw [lowerChar, hnone]
  rfl

theorem ws_lowerChar {c : Char} (h : isPyWhitespace (lowerChar c) = true) :
    isPyWhitespace c = true := by
  by_cases hc : c ∈ asciiLowerPairs.map Prod.fst
  · fin_cases hc <;> revert h <;> decide
  · rwa [lowerChar_eq_self hc] at h

theorem lowerChar_ne_space {c : Char} (h : c ≠ ' ') : lowerChar c ≠ ' ' := by
  by_cases hc : c ∈ asciiLowerPairs.map Prod.fst
  · fin_cases hc <;> decide
  · rwa [lowerChar_eq_self hc]

theorem lowerChar_idem (c : Char) : lowerChar (lowerChar c) = lowerChar c := by
  by_cases hc : c ∈ asciiLowerPairs.map Prod.fst
  · fin_cases hc <;> decide
  · rw [lowerChar_eq_self hc]
    exact lowerChar_eq_self hc

theorem replaceSpaceChar_ne_space (c : Char) : replaceSpaceChar c ≠ ' ' := by
  rw [replaceSpaceChar]
  by_cases hc : c = ' '
  · rw [if_pos hc]; decide
  · rw [if_neg hc]; exact hc

theorem ws_replaceSpaceChar {c : Char} (h : isPyWhitespace (replaceSpaceChar c) = true) :
    isPyWhitespace c = true := by
  by_cases hc : c = ' '
  · subst hc; decide
  · rwa [replaceSpaceChar, if_neg hc] at h

theorem replaceSpaceChar_eq_self {c : Char} (h : c ≠ ' ') : replaceSpaceChar c = c :=
  if_neg h

theorem normChar_idem (c : Char) :
    lowerChar (replaceSpaceChar (lowerChar (replaceSpaceChar c))) =
      lowerChar (replaceSpaceChar c) := by
  rw [replaceSpaceChar_eq_self (lowerChar_ne_space (replaceSpaceChar_ne_space c)),
    lowerChar_idem]

theorem dropWhile_of_append_eq {α : Type} {p : α → Bool} {u s : List α}
    (h : (u ++ s).dropWhile p = u ++ s) : u.dropWhile p = u := by
  cases u with
  | nil => rfl
  | cons a u =>
    rw [List.cons_append, List.dropWhile_cons] at h
    by_cases ha : p a = true
    · rw [if_pos ha] at h
      have hle := (List.dropWhile_suffix (l := u ++ s) p).length_le
      have hlen := congrArg List.length h
      simp only [List.length_cons, List.length_append] at hle hlen
      omega
    · rw [List.dropWhile_cons, if_neg ha]

theorem stripChars_dropWhile_eq (l : List Char) :
    (stripChars l).dropWhile isPyWhitespace = stripChars l := by
  obtain ⟨s, hs⟩ := List.rdropWhile_prefix isPyWhitespace (l.dropWhile isPyWhitespace)
  have hidem := List.dropWhile_idempotent isPyWhitespace l
  rw [← hs] at hidem
  exact dropWhile_of_append_eq hidem

theorem stripChars_rdropWhile_eq (l : List Char) :
    (stripChars l).rdropWhile isPyWhitespace = stripChars l :=
  List.rdropWhile_idempotent isPyWhitespace (l.dropWhile isPyWhitespace)

theorem dropWhile_map_eq_self {g : Char → Char}
    (hg : ∀ c, isPyWhitespace (g c) = true → isPyWhitespace c = true)
    {m : List Char} (h : m.dropWhile isPyWhitespace = m) :
    (m.map g).dropWhile isPyWhitespace = m.map g := by
  cases m with
  | nil => rfl
  | cons a t =>
    have ha : isPyWhitespace a = false := by
      by_contra hpa
      rw [Bool.not_eq_false] at hpa
      rw [List.dropWhile_cons, if_pos hpa] at h
      have hle := (List.dropWhile_suffix (l := t) isPyWhitespace).length_le
      have hlen := congrArg List.length h
      simp only [List.length_cons] at hlen
      omega
    have hga : isPyWhitespace (g a) = false := by
      by_contra hpa
      rw [Bool.not_eq_false] at hpa
      rw [hg a hpa] at ha
      cases ha
    rw [List.map_cons, List.dropWhile_cons, if_neg (by simp [hga])]

theorem rdropWhile_map_eq_self {g : Char → Char}
    (hg : ∀ c, isPyWhitespace (g c) = true → isPyWhitespace c = true)
    {m : List Char} (h : m.rdropWhile isPyWhitespace = m) :
    (m.map g).rdropWhile isPyWhitespace = m.map g := by
  have hrev : (m.reverse).dropWhile isPyWhitespace = m.reverse := by
    have := congrArg List.reverse h
    rwa [List.rdropWhile, List.reverse_reverse] at this
  have hmap := dropWhile_map_eq_self hg hrev
  rw [List.rdropWhile, ← List.map_reverse, hmap, List.map_reverse, List.reverse_reverse]

theorem charNormalize_idem (l : List Char) :
    charNormalize (charNormalize l) = charNormalize l := by
  have hcomp : ∀ m : List Char,
      (m.map replaceSpaceChar).map lowerChar =
        m.map fun c => lowerChar (replaceSpaceChar c) := fun m => by
    rw [List.map_map]
    rfl
  have hg : ∀ c, isPyWhitespace (lowerChar (replaceSpaceChar c)) = true →
      isPyWhitespace c = true := fun c h => ws_replaceSpaceChar (ws_lowerChar h)
  have h1 := dropWhile_map_eq_self hg (stripChars_dropWhile_eq l)
  have h2 := rdropWhile_map_eq_self hg (stripChars_rdropWhile_eq l)
  have hstrip :
      stripChars ((stripChars l).map fun c => lowerChar (replaceSpaceChar c)) =
        (stripChars l).map fun c => lowerChar (replaceSpaceChar c) := by
    rw [stripChars, h1, h2]
  rw [charNormalize, charNormalize]
  simp only [hcomp]
  rw [hstrip, List.map_map]
  exact List.map_inj_left.2 fun c _ => normChar_idem c

theorem normalizeName_idem (s : String) :
    normalizeName (normalizeName s) = normalizeName s :=
  congrArg String.mk (charNormalize_idem s.data)

/-- C6: the column-name normalization (trim surrounding whitespace, replace
spaces with underscores, lowercase, applied uniformly to every column name)
is idempotent: applying it twice yields the same names as applying it once. -/
theorem normalizeColumns_idempotent (cols : List String) :
    normalizeColumns (normalizeColumns cols) = normalizeColumns cols := by
  rw [normalizeColumns, normalizeColumns, List.map_map]
  exact List.map_inj_left.2 fun s _ => normalizeName_idem s

theorem cols_applyDateCol (parse : Cell → Option Int) (acc : DF) (col : String) :
    (applyDateCol parse acc col).cols = acc.cols := by
  rw [applyDateCol]
  split <;> rfl

theorem length_rows_applyDateCol (parse : Cell → Option Int) (acc : DF) (col : String) :
    (applyDateCol parse acc col).rows.length = acc.rows.length := by
  rw [applyDateCol]
  split
  · exact List.length_map _ _
  · rfl

theorem rowCell_set_self {r : List Cell} {j : Nat} (h : j < r.length) (c : Cell) :
    rowCell (r.set j c) j = c := by
  rw [rowCell, List.getD_eq_getElem?_getD, List.getElem?_set_self h]
  rfl

theorem rowCell_set_ne {r : List Cell} {j1 j2 : Nat} (h : j1 ≠ j2) (c : Cell) :
    rowCell (r.set j1 c) j2 = rowCell r j2 := by
  rw [rowCell, rowCell, List.getD_eq_getElem?_getD, List.getD_eq_getElem?_getD,
    List.getElem?_set_ne h]

theorem loopDateName_eval :
    DATE_COLS.map loopDateName = ["order_date", "ship_date"] := by
  decide

theorem indexOf_ne_of_mem_ne {l : List String} {a b : String}
    (ha : a ∈ l) (hb : b ∈ l) (hab : a ≠ b) : l.indexOf a ≠ l.indexOf b :=
  fun h => hab ((List.indexOf_inj ha hb).1 h)

/-- C9: for every configured date column present in the table (matched after
the loop's name normalization), the date-parsing pass maps each cell of that
column through `coerceDate`: a parseable value becomes a datetime value and
an unparseable one becomes the missing marker; the pass is total (no
exception propagates), it keeps every row (the row count is unchanged) and
leaves the column names unchanged. The hypothesis states that every row has
a cell for every column, as in any frame read from a CSV. -/
theorem datePass_spec (parse : Cell → Option Int) (df : DF)
    (hwf : ∀ r ∈ df.rows, df.cols.length ≤ r.length) :
    (datePass parse df).rows.length = df.rows.length ∧
    (datePass parse df).cols = df.cols ∧
    (∀ col ∈ DATE_COLS.map loopDateName, col ∈ df.cols →
      ∀ i : Nat, ∀ r : List Cell, df.rows[i]? = some r →
        ∃ r2, (datePass parse df).rows[i]? = some r2 ∧
          rowCell r2 (df.cols.indexOf col) =
            coerceDate parse (rowCell r (df.cols.indexOf col))) := by
  have hunfold : datePass parse df =
      applyDateCol parse (applyDateCol parse df "order_date") "ship_date" := by
    rw [datePass, loopDateName_eval]
    rfl
  refine ⟨?_, ?_, ?_⟩
  · rw [hunfold, length_rows_applyDateCol, length_rows_applyDateCol]
  · rw [hunfold, cols_applyDateCol, cols_applyDateCol]
  · intro col hcol hmem i r hi
    rw [loopDateName_eval] at hcol
    have hAcols : (applyDateCol parse df "order_date").cols = df.cols :=
      cols_applyDateCol parse df "order_date"
    -- row of the intermediate frame at position i
    have hrlen : df.cols.length ≤ r.length := hwf r (List.getElem?_mem hi)
    rcases List.mem_cons.1 hcol with rfl | hcol2
    · -- col = "order_date"
      have hj1 : df.cols.indexOf "order_date" < df.cols.length :=
        List.indexOf_lt_length.2 hmem
      have hA : (applyDateCol parse df "order_date").rows =
          mapColumn (df.cols.indexOf "order_date") (coerceDate parse) df.rows := by
        rw [applyDateCol, if_pos hmem]
      have hAi : (applyDateCol parse df "order_date").rows[i]? =
          some ((r.set (df.cols.indexOf "order_date")
            (coerceDate parse (rowCell r (df.cols.indexOf "order_date"))))) := by
        rw [hA, mapColumn, List.getElem?_map, hi]
        rfl
      have hv1 : rowCell ((r.set (df.cols.indexOf "order_date")
            (coerceDate parse (rowCell r (df.cols.indexOf "order_date")))))
            (df.cols.indexOf "order_date") =
          coerceDate parse (rowCell r (df.cols.indexOf "order_date")) :=
        rowCell_set_self (Nat.lt_of_lt_of_le hj1 hrlen) _
      by_cases hs : "ship_date" ∈ df.cols
      · have hj2ne : df.cols.indexOf "ship_date" ≠ df.cols.indexOf "order_date" :=
          indexOf_ne_of_mem_ne hs hmem (by decide)
        have hB : (applyDateCol parse (applyDateCol parse df "order_date") "ship_date").rows =
            mapColumn (df.cols.indexOf "ship_date") (coerceDate parse)
              (applyDateCol parse df "order_date").rows := by
          rw [applyDateCol, hAcols, if_pos hs]
        refine ⟨((r.set (df.cols.indexOf "order_date")
            (coerceDate parse (rowCell r (df.cols.indexOf "order_date")))).set
              (df.cols.indexOf "ship_date")
              (coerceDate parse (rowCell
                (r.set (df.cols.indexOf "order_date")
                  (coerceDate parse (rowCell r (df.cols.indexOf "order_date"))))
                (df.cols.indexOf "ship_date")))),
          by rw [hunfold, hB, mapColumn, List.getElem?_map, hAi]; rfl, ?_⟩
        rw [rowCell_set_ne hj2ne, hv1]
      · have hB : (applyDateCol parse (applyDateCol parse df "order_date") "ship_date") =
            applyDateCol parse df "order_date" := by
          rw [applyDateCol, hAcols, if_neg hs]
        exact ⟨_, by rw [hunfold, hB]; exact hAi, hv1⟩
    · -- col = "ship_date"
      have hcolship : col = "ship_date" := by
        rcases List.mem_cons.1 hcol2 with h | h
        · exact h
        · cases h
      subst hcolship
      have hj2 : df.cols.indexOf "ship_date" < df.cols.length :=
        List.indexOf_lt_length.2 hmem
      by_cases ho : "order_date" ∈ df.cols
      · have hj1ne : df.cols.indexOf "order_date" ≠ df.cols.indexOf "ship_date" :=
          indexOf_ne_of_mem_ne ho hmem (by decide)
        have hA : (applyDateCol parse df "order_date").rows =
            mapColumn (df.cols.indexOf "order_date") (coerceDate parse) df.rows := by
          rw [applyDateCol, if_pos ho]
        have hAi : (applyDateCol parse df "order_date").rows[i]? =
            some ((r.set (df.cols.indexOf "order_date")
              (coerceDate parse (rowCell r (df.cols.indexOf "order_date"))))) := by
          rw [hA, mapColumn, List.getElem?_map, hi]
          rfl
        have hB : (applyDateCol parse (applyDateCol parse df "order_date") "ship_date").rows =
            mapColumn (df.cols.indexOf "ship_date") (coerceDate parse)
              (applyDateCol parse df "order_date").rows := by
          rw [applyDateCol, hAcols, if_pos hmem]
        have hcell : rowCell ((r.set (df.cols.indexOf "order_date")
              (coerceDate parse (rowCell r (df.cols.indexOf "order_date")))))
              (df.cols.indexOf "ship_date") = rowCell r (df.cols.indexOf "ship_date") :=
          rowCell_set_ne hj1ne _
        refine ⟨((r.set (df.cols.indexOf "order_date")
            (coerceDate parse (rowCell r (df.cols.indexOf "order_date")))).set
              (df.cols.indexOf "ship_date")
              (coerceDate parse (rowCell
                (r.set (df.cols.indexOf "order_date")
                  (coerceDate parse (rowCell r (df.cols.indexOf "order_date"))))
                (df.cols.indexOf "ship_date")))),
          by rw [hunfold, hB, mapColumn, List.getElem?_map, hAi]; rfl, ?_⟩
        rw [hcell, rowCell_set_self]
        rw [List.length_set]
        exact Nat.lt_of_lt_of_le hj2 hrlen
      · have hA : applyDateCol parse df "order_date" = df := by
          rw [applyDateCol, if_neg ho]
        have hB : (applyDateCol parse (applyDateCol parse df "order_date") "ship_date").rows =
            mapColumn (df.cols.indexOf "ship_date") (coerceDate parse) df.rows := by
          rw [hA, applyDateCol, if_pos hmem]
        refine ⟨_, by rw [hunfold, hB, mapColumn, List.getElem?_map, hi]; rfl, ?_⟩
        exact rowCell_set_self (Nat.lt_of_lt_of_le hj2 hrlen) _

/-- Witness for C9 at a concrete frame with an order_date column, a parser
that accepts the first date string and rejects the second: both rows are
kept, the parseable cell becomes a datetime and the unparseable one becomes
the missing marker. -/
theorem datePass_spec_witness :
    (∀ r ∈ (DF.mk ["order_date", "sales"]
        [[Cell.str "2011-01-01", Cell.num 5], [Cell.str "garbage", Cell.num 6]]).rows,
      (DF.mk ["order_date", "sales"]
        [[Cell.str "2011-01-01", Cell.num 5], [Cell.str "garbage", Cell.num 6]]).cols.length ≤
          r.length) ∧
    (datePass
        (fun c => if c = Cell.str "2011-01-01" then some 14610 else none)
        (DF.mk ["order_date", "sales"]
          [[Cell.str "2011-01-01", Cell.num 5], [Cell.str "garbage", Cell.num 6]])).rows.length =
      2 ∧
    (∃ r2, (datePass
        (fun c => if c = Cell.str "2011-01-01" then some 14610 else none)
        (DF.mk ["order_date", "sales"]
          [[Cell.str "2011-01-01", Cell.num 5], [Cell.str "garbage", Cell.num 6]])).rows[1]? =
          some r2 ∧
      rowCell r2 0 = Cell.na) := by
  have hwf : ∀ r ∈ (DF.mk ["order_date", "sales"]
      [[Cell.str "2011-01-01", Cell.num 5], [Cell.str "garbage", Cell.num 6]]).rows,
      (DF.mk ["order_date", "sales"]
        [[Cell.str "2011-01-01", Cell.num 5], [Cell.str "garbage", Cell.num 6]]).cols.length ≤
        r.length := by decide
  have h := datePass_spec
    (fun c => if c = Cell.str "2011-01-01" then some 14610 else none)
    (DF.mk ["order_date", "sales"]
      [[Cell.str "2011-01-01", Cell.num 5], [Cell.str "garbage", Cell.num 6]])
    hwf
  refine ⟨hwf, by rw [h.1]; rfl, ?_⟩
  obtain ⟨r2, hr2, hcell⟩ := h.2.2 "order_date" (by decide) (by decide) 1
    [Cell.str "garbage", Cell.num 6] rfl
  refine ⟨r2, hr2, ?_⟩
  have h0 : (["order_date", "sales"] : List String).indexOf "order_date" = 0 := by decide
  rw [← h0, hcell]
  decide

/-- C4: when the input file does not exist at the configured path, the run
writes a line containing CRITICAL and the configured path to the text log
and terminates cleanly: the cleaned-output file and the structured report
file are not written (the report document exists only in memory, where it
holds its title and the critical paragraph, and is discarded). -/
theorem run_pipeline_missing_input (now : String) (parse : Cell → Option Int) :
    (run_pipeline now none parse).cleanOut = none ∧
    (run_pipeline now none parse).reportSaved = none ∧
    (∃ line ∈ (run_pipeline now none parse).textLog,
      (∃ a b : String, line = a ++ "CRITICAL" ++ b) ∧
      (∃ a b : String, line = a ++ RAW_DATA_PATH ++ b)) ∧
    (run_pipeline now none parse).reportInMemory ≠ [] := by
  refine ⟨rfl, rfl, ?_, by simp [run_pipeline, loggerInit, logMessage]⟩
  refine ⟨now ++ " | " ++ ("CRITICAL: " ++ RAW_DATA_PATH ++ " not found."), ?_, ?_, ?_⟩
  · simp [run_pipeline, loggerInit, logMessage]
  · refine ⟨now ++ " | ", ": " ++ RAW_DATA_PATH ++ " not found.", ?_⟩
    simp only [String.append_assoc]
    exact congrArg (fun s => now ++ s) (by decide)
  · refine ⟨now ++ " | " ++ "CRITICAL: ", " not found.", ?_⟩
    simp only [String.append_assoc]

/-- C10: a call to `detect_inconsistencies` leaves the caller's table
unchanged: the function works on a copy, and in the state-passing model of
the call the caller's frame after the call is exactly the frame passed in,
while the result is computed from the copy. -/
theorem detectCall_preserves_input (df : DF) (col1 : String) (col2 : List String) :
    (detectCall df col1 col2).1 = df ∧
    (detectCall df col1 col2).2 = detect_inconsistencies (copyDF df) col1 col2 :=
  ⟨rfl, rfl⟩
